import Mathlib

/-!
Verification of the CortexWallet transaction tool (src/main.py) against its
natural-language specification.

The Python source is shallowly embedded: Python `Decimal` values become exact
rationals (`ℚ`), Python `int` becomes `ℤ` (or `ℕ` where the chain guarantees
non-negativity, e.g. balances and node-reported fee values), Python `int(...)`
conversion becomes truncation toward zero, fallible external queries become
`Option`/`Except` valued oracle fields, and the interactive pipeline
`send_ctxc` becomes a pure function from its oracle answers and user inputs to
an outcome that also records how many signing and broadcast calls were made.

Notes on fidelity:
- `decimal.getcontext().prec = 50` (line 54) rounds every Decimal arithmetic
  result to 50 significant digits (ROUND_HALF_EVEN); this is modelled by
  `roundPrec`, applied to the product in `to_wei` and the quotient in
  `from_wei`. Decimal construction from a string or an int is exact and
  `Decimal(10) ** 18` is exact (19 digits), so one rounding per operation is
  the faithful model.
- `w3.to_wei(x, "gwei")` multiplies by 10^9 and converts to int; the library
  raises for NaN/Infinity inputs and for results outside the unsigned 256-bit
  range, which `w3_to_wei_gwei` models as `none`; `gweiToWei` is the numeric
  conversion on the in-range finite values.
- String handling mirrors Python semantics over the character list of a Lean
  `String` (case-insensitive sort keys, code-point lexicographic comparison).
-/

namespace CortexWallet

/-- Truncation toward zero of an exact rational, modelling Python `int(...)`
applied to a `Decimal` value. -/
def pyIntTrunc (q : ℚ) : ℤ := if 0 ≤ q then ⌊q⌋ else ⌈q⌉

/-- Rounding to the nearest integer with ties to the even neighbor, Python
Decimal's default ROUND_HALF_EVEN mode. -/
def roundHalfEven (x : ℚ) : ℤ :=
  if x - ⌊x⌋ < 1 / 2 then ⌊x⌋
  else if 1 / 2 < x - ⌊x⌋ then ⌊x⌋ + 1
  else if ⌊x⌋ % 2 = 0 then ⌊x⌋ else ⌊x⌋ + 1

/-- Rounding of a Decimal arithmetic result under the 50-digit context set by
`decimal.getcontext().prec = 50` (src/main.py line 54): the value is rounded
half-even at the position 49 decimal places below its leading digit, i.e. to
50 significant digits. Exact on every value that fits in 50 significant
digits. -/
def roundPrec (x : ℚ) : ℚ :=
  if x = 0 then 0
  else
    ((roundHalfEven (x / 10 ^ (Int.log 10 |x| - 49)) : ℚ)
      * 10 ^ (Int.log 10 |x| - 49) : ℚ)

/-- Embeds `to_wei` (src/main.py lines 58-59):
`int(Decimal(str(amount_ctxc)) * Decimal(10) ** 18)`. The string/Decimal
round-trip `Decimal(str(x))` is the identity on the numeric value and
`Decimal(10) ** 18` is exact, so the function is truncation of the product
`amount * 10^18` as rounded by the 50-digit context. -/
def to_wei (amount_ctxc : ℚ) : ℤ := pyIntTrunc (roundPrec (amount_ctxc * 10 ^ 18))

/-- Embeds `from_wei` (src/main.py lines 61-62):
`Decimal(wei_amount) / Decimal(10) ** 18` — division, with the quotient
rounded by the 50-digit context. -/
def from_wei (wei_amount : ℤ) : ℚ := roundPrec ((wei_amount : ℚ) / 10 ^ 18)

/-- The numeric part of `w3.to_wei(x, "gwei")` on a finite in-range value:
multiply by 10^9, convert to int. Gwei-scale fee values are far below any
precision bound, so the multiplication is exact. The library's raise path
(NaN/Infinity input, out-of-range result) is modelled by `w3_to_wei_gwei`. -/
def gweiToWei (x : ℚ) : ℤ := pyIntTrunc (x * 10 ^ 9)

/-- Fee fields of the transaction dict built by `build_tx`: either the legacy
`gasPrice` key or the dynamic `maxFeePerGas`/`maxPriorityFeePerGas` pair. -/
inductive FeeFields where
  | legacy (gasPrice : ℤ)
  | eip1559 (maxFeePerGas maxPriorityFeePerGas : ℤ)
deriving DecidableEq

/-- The `fee_model` tag returned by `build_tx` ("legacy" or "eip1559"). -/
inductive FeeModel where
  | legacy
  | eip1559
deriving DecidableEq

/-- The transaction dict assembled by `build_tx` (src/main.py lines 306-317). -/
structure Tx where
  fromAddr : String
  toAddr : String
  value : ℤ
  nonce : ℕ
  gas : ℤ
  chainId : ℤ
  fee : FeeFields
deriving DecidableEq

/-- Answers of the three fee-related node queries made by `build_tx`.
`baseFee = none` covers both a failed `get_block("latest")` call and a latest
block without a `baseFeePerGas` field (lines 288-292); `maxPriorityFee = none`
models `w3.eth.max_priority_fee` raising (line 295); `gasPrice = none` models
`w3.eth.gas_price` raising (line 303). Node-reported values are non-negative
chain integers, hence `ℕ`. -/
structure FeeOracle where
  baseFee : Option ℕ
  maxPriorityFee : Option ℕ
  gasPrice : Option ℕ
deriving DecidableEq

/-- Gas limit of a native value transfer, `GAS_LIMIT_TRANSFER = 21000`
(src/main.py line 287). -/
def GAS_LIMIT_TRANSFER : ℤ := 21000

/-- The priority-fee selection of `build_tx` (src/main.py lines 293-299):
the explicit `tip_gwei` if supplied, else the node's suggested priority fee,
else the hard-coded `w3.to_wei(2, "gwei")` fallback. -/
def chosen_priority (o : FeeOracle) (tip_gwei : Option ℚ) : ℤ :=
  match tip_gwei with
  | none =>
    match o.maxPriorityFee with
    | some p => (p : ℤ)
    | none => gweiToWei 2
  | some t => gweiToWei t

/-- Embeds `build_tx` (src/main.py lines 285-319). The oracle supplies the
answers of the node queries; everything else is the source's arithmetic. -/
def build_tx (o : FeeOracle) (from_addr to_addr : String) (value_wei : ℤ)
    (nonce : ℕ) (chain_id : ℤ) (tip_gwei : Option ℚ) : Tx × FeeModel :=
  let priority := chosen_priority o tip_gwei
  match o.baseFee with
  | none =>
    let gas_price : ℤ :=
      match o.gasPrice with
      | some g => (g : ℤ)
      | none => gweiToWei 2
    (⟨from_addr, to_addr, value_wei, nonce, GAS_LIMIT_TRANSFER, chain_id,
      FeeFields.legacy gas_price⟩, FeeModel.legacy)
  | some base_fee =>
    let max_fee : ℤ := (base_fee : ℤ) * 2 + priority
    (⟨from_addr, to_addr, value_wei, nonce, GAS_LIMIT_TRANSFER, chain_id,
      FeeFields.eip1559 max_fee priority⟩, FeeModel.eip1559)

/-- The `gasPrice` key of the transaction dict, when present. -/
def tx_gasPrice (tx : Tx) : Option ℤ :=
  match tx.fee with
  | FeeFields.legacy g => some g
  | FeeFields.eip1559 _ _ => none

/-- The `maxFeePerGas` key of the transaction dict, when present. -/
def tx_maxFeePerGas (tx : Tx) : Option ℤ :=
  match tx.fee with
  | FeeFields.legacy _ => none
  | FeeFields.eip1559 mf _ => some mf

/-- The `maxPriorityFeePerGas` key of the transaction dict, when present. -/
def tx_maxPriorityFeePerGas (tx : Tx) : Option ℤ :=
  match tx.fee with
  | FeeFields.legacy _ => none
  | FeeFields.eip1559 _ p => some p

/-- The fee estimate of `send_ctxc` (src/main.py lines 365-369):
`gas * gasPrice` when the dict carries `gasPrice`, else `gas * maxFeePerGas`. -/
def est_fee (tx : Tx) : ℤ :=
  match tx.fee with
  | FeeFields.legacy g => tx.gas * g
  | FeeFields.eip1559 mf _ => tx.gas * mf

/-- The fee-selector contract exactly as the specification words it (§4.2),
for comparison with the embedded `build_tx`: dynamic model when a base fee is
exposed, with priority fee from the explicit gwei value, else the suggested
priority fee, else 2 gwei, and `maxFeePerGas = 2 × baseFee + priorityFee`;
legacy model otherwise with the suggested gas price or a 2 gwei fallback. -/
def selectFee_spec (baseFee suggestedPriority suggestedGasPrice : Option ℕ)
    (explicitPriorityGwei : Option ℚ) : FeeFields :=
  match baseFee with
  | some b =>
    let p : ℤ :=
      match explicitPriorityGwei with
      | some t => gweiToWei t
      | none =>
        match suggestedPriority with
        | some s => (s : ℤ)
        | none => gweiToWei 2
    FeeFields.eip1559 (2 * (b : ℤ) + p) p
  | none =>
    match suggestedGasPrice with
    | some g => FeeFields.legacy (g : ℤ)
    | none => FeeFields.legacy (gweiToWei 2)

/-- Values of Python `Decimal(tip_in)` when the parse succeeds (src/main.py
line 358): a finite number, or one of the special values NaN, Infinity and
-Infinity, which the Decimal constructor also accepts. -/
inductive PyDecimal where
  | fin (q : ℚ)
  | nan
  | inf
  | negInf
deriving DecidableEq

/-- Largest unsigned 256-bit value, the upper bound of a wei amount accepted
by the client library's unit conversion. -/
def UINT256_MAX : ℤ := 2 ^ 256 - 1

/-- Embeds the library call `w3.to_wei(tip_gwei, "gwei")` (src/main.py line
299) with its raise path: the conversion raises — modelled as `none` — on a
NaN or (signed) Infinity input and on a result outside 0..2^256-1 (for
example a negative tip); otherwise it returns the truncated wei value. -/
def w3_to_wei_gwei (d : PyDecimal) : Option ℤ :=
  match d with
  | PyDecimal.fin q =>
    if q * 10 ^ 9 < 0 ∨ (UINT256_MAX : ℚ) < q * 10 ^ 9 then none
    else some (pyIntTrunc (q * 10 ^ 9))
  | _ => none

/-- The numeric value of a parsed tip, when it is finite. -/
def tipValue : Option PyDecimal → Option ℚ
  | some (PyDecimal.fin q) => some q
  | _ => none

/-- Embeds `build_tx` (src/main.py lines 285-319) once more, now with the
raise path of the library call `w3.to_wei(tip_gwei, "gwei")` on line 299 made
explicit: the priority fee is computed before the legacy/dynamic branch, so a
raising conversion aborts `build_tx` — modelled as `none` — under either fee
model; `build_tx` itself keeps the source's arithmetic on the non-raising
inputs. -/
def build_tx_checked (o : FeeOracle) (from_addr to_addr : String)
    (value_wei : ℤ) (nonce : ℕ) (chain_id : ℤ) (tip_gwei : Option PyDecimal) :
    Option (Tx × FeeModel) :=
  let priorityOpt : Option ℤ :=
    match tip_gwei with
    | none =>
      match o.maxPriorityFee with
      | some p => some (p : ℤ)
      | none => some (gweiToWei 2)
    | some d => w3_to_wei_gwei d
  match priorityOpt with
  | none => none
  | some priority =>
    match o.baseFee with
    | none =>
      let gas_price : ℤ :=
        match o.gasPrice with
        | some g => (g : ℤ)
        | none => gweiToWei 2
      some (⟨from_addr, to_addr, value_wei, nonce, GAS_LIMIT_TRANSFER, chain_id,
        FeeFields.legacy gas_price⟩, FeeModel.legacy)
    | some base_fee =>
      some (⟨from_addr, to_addr, value_wei, nonce, GAS_LIMIT_TRANSFER, chain_id,
        FeeFields.eip1559 ((base_fee : ℤ) * 2 + priority) priority⟩,
        FeeModel.eip1559)

/-- Answers of the node queries made by `send_ctxc` after the destination and
amount prompts. `nonce` is `w3.eth.get_transaction_count` (line 362); `balance`
is the `w3.eth.get_balance` call of the affordability check (line 372), a
non-negative chain value (the earlier balance query on line 325 only decorates
the prompt and affects nothing). `signedRaw = none` models a signed transaction
exposing neither `rawTransaction` nor `raw_transaction` (lines 400-402);
`broadcastOutcome` is `send_raw_transaction`, with `Except.error` covering the
`ValueError`/`ContractLogicError` rejections caught on line 408. -/
structure SendOracle where
  fees : FeeOracle
  nonce : ℕ
  balance : ℕ
  signedRaw : Option ℕ
  broadcastOutcome : Except String ℕ

/-- User inputs consumed by `send_ctxc`. `dest = none` models every path on
lines 332-346 that ends the operation without a checksum-valid destination
(nothing picked from favorites, or a manual address failing checksum
validation). `amountIn = none` models an amount string on which
`to_wei(amount_str)` raises (line 349-352), `some q` a string parsing to the
numeric value `q`. `tipIn` mirrors the priority-fee prompt (lines 354-360):
`none` = blank, `some none` = supplied but not a valid Decimal (degrades to
auto with a message), `some (some t)` = valid explicit tip. `confirmYes` is
the confirmation gate of lines 394-395: `true` iff the stripped, lowercased
answer equals "ya". -/
structure SendInput where
  dest : Option String
  amountIn : Option ℚ
  tipIn : Option (Option ℚ)
  confirmYes : Bool
deriving DecidableEq

/-- The effective `tip_gwei` value after the priority-fee prompt: an invalid
or blank entry leaves `tip_gwei = None` (src/main.py lines 355-360). -/
def effective_tip (tipIn : Option (Option ℚ)) : Option ℚ :=
  match tipIn with
  | some (some t) => some t
  | _ => none

/-- Outcome classification of one `send_ctxc` run, following the spec's error
taxonomy (§7): each early `return`/caught exception of lines 321-409 is one
constructor. -/
inductive SendResult where
  | invalidAddress
  | invalidAmount
  | insufficientFunds
  | userCancelled
  | signingError
  | broadcastRejected (msg : String)
  | sent (txHash : ℕ)
deriving DecidableEq

/-- Result of a `send_ctxc` run together with how many signing and broadcast
calls were issued to the signing library and the node. -/
structure SendOutcome where
  result : SendResult
  signCalls : ℕ
  broadcastCalls : ℕ
deriving DecidableEq

/-- Embeds `send_ctxc` (src/main.py lines 321-409) as a pure function of the
oracle answers and user inputs. The steps appear in source order: destination
resolution, amount conversion, tip prompt, nonce query, `build_tx`, fee
estimate, balance query and affordability check, confirmation gate, signing,
raw-payload extraction, broadcast. -/
def send_ctxc (o : SendOracle) (i : SendInput) (from_addr : String)
    (chain_id : ℤ) : SendOutcome :=
  match i.dest with
  | none => ⟨SendResult.invalidAddress, 0, 0⟩
  | some to_addr =>
    match i.amountIn with
    | none => ⟨SendResult.invalidAmount, 0, 0⟩
    | some amt =>
      let value_wei := to_wei amt
      let tip_gwei := effective_tip i.tipIn
      let built := build_tx o.fees from_addr to_addr value_wei o.nonce chain_id tip_gwei
      let tx := built.1
      let fee := est_fee tx
      let total_needed := value_wei + fee
      if (o.balance : ℤ) < total_needed then
        ⟨SendResult.insufficientFunds, 0, 0⟩
      else if i.confirmYes = false then
        ⟨SendResult.userCancelled, 0, 0⟩
      else
        match o.signedRaw with
        | none => ⟨SendResult.signingError, 1, 0⟩
        | some _ =>
          match o.broadcastOutcome with
          | Except.error m => ⟨SendResult.broadcastRejected m, 1, 1⟩
          | Except.ok h => ⟨SendResult.sent h, 1, 1⟩

/-- Lower-cases a string, modelling Python `str.lower()` on the names handled
here (per-character lower-casing). -/
def strLower (s : String) : String := ⟨s.data.map Char.toLower⟩

/-- Code-point lexicographic string comparison on character lists, the order
Python uses to compare `str` values. -/
def lexLeChars : List Char → List Char → Bool
  | [], _ => true
  | _ :: _, [] => false
  | a :: as, b :: bs =>
    if a.toNat < b.toNat then true
    else if b.toNat < a.toNat then false
    else lexLeChars as bs

/-- Python `str.strip()`: whitespace removed from both ends. -/
def trimChars (l : List Char) : List Char :=
  ((l.dropWhile Char.isWhitespace).reverse.dropWhile Char.isWhitespace).reverse

/-- The environment-variable tag of named credentials. -/
def pkTag : String := "CTXC_PK_"

/-- The reserved registry name of the unnamed legacy credential. -/
def legacyName : String := "LEGACY"

/-- Case-insensitive sort key of a registry entry: the lower-cased name,
modelling `key=lambda x: x[0].lower()` (src/main.py line 126). -/
def keyOf (p : String × ℕ) : List Char := (strLower p.1).data

/-- Boolean comparison of two registry entries by their sort keys. -/
def keyLe (p q : String × ℕ) : Bool := lexLeChars (keyOf p) (keyOf q)

/-- Python dict assignment `accounts[name] = acct` on an insertion-ordered
association list: replace in place when the key exists, append otherwise. -/
def dictInsert (d : List (String × ℕ)) (k : String) (v : ℕ) : List (String × ℕ) :=
  if d.any (fun p => p.1 = k) then
    d.map (fun p => if p.1 = k then (k, v) else p)
  else d ++ [(k, v)]

/-- Sorting of the registry by lower-cased name, modelling
`sorted(accounts.items(), key=lambda x: x[0].lower())` (line 126): a stable
insertion sort under the case-insensitive key comparison. -/
def sortAccounts (l : List (String × ℕ)) : List (String × ℕ) :=
  l.insertionSort (fun p q => keyLe p q = true)

/-- The registry name derived from an environment-variable key:
`k.replace("CTXC_PK_", "", 1).strip()` (line 116). Since this is only applied
to keys that start with the tag, replacing the first occurrence removes the
leading tag characters. -/
def nameOf (k : String) : String := ⟨trimChars (k.data.drop pkTag.data.length)⟩

/-- One iteration of the `for k, v in os.environ.items()` loop of
`load_accounts` (src/main.py lines 113-124), acting on the state
(registry so far, warnings so far). `derive` models
`Account.from_key` followed by `w3.to_checksum_address` on the derived
address: `none` when either raises, `some acct` otherwise. -/
def load_step (derive : String → Option ℕ) (st : List (String × ℕ) × ℕ)
    (kv : String × String) : List (String × ℕ) × ℕ :=
  if kv.1.data.take 8 = pkTag.data then
    if nameOf kv.1 = "" ∨ kv.2 = "" then st
    else
      match derive kv.2 with
      | some acct => (dictInsert st.1 (nameOf kv.1) acct, st.2)
      | none => (st.1, st.2 + 1)
  else st

/-- The legacy-credential block of `load_accounts` (src/main.py lines
104-111): registry and warning count before the environment loop.
`legacyCred` is `os.getenv("CTXC_PRIVATE_KEY")`; Python's truthiness test
`if legacy:` skips both an unset and an empty variable. -/
def load_start (derive : String → Option ℕ) (legacyCred : Option String) :
    List (String × ℕ) × ℕ :=
  match legacyCred with
  | some s =>
    if s = "" then ([], 0)
    else
      match derive s with
      | some acct => ([(legacyName, acct)], 0)
      | none => ([], 1)
  | none => ([], 0)

/-- Embeds `load_accounts` (src/main.py lines 98-126). `env` is the ordered
listing of `os.environ.items()` (the tag test is inside the loop). Returns
the sorted registry and the number of warnings printed. Totality is by
construction: every candidate failure only warns and continues. -/
def load_accounts (derive : String → Option ℕ) (legacyCred : Option String)
    (env : List (String × String)) : List (String × ℕ) × ℕ :=
  let folded := env.foldl (load_step derive) (load_start derive legacyCred)
  (sortAccounts folded.1, folded.2)

/-- Characterizes the environment entries on which one loop iteration of
`load_accounts` prints a warning: a `CTXC_PK_`-tagged key whose name and value
are non-empty but whose credential fails derivation or checksum validation. -/
def failsDerive (derive : String → Option ℕ) (kv : String × String) : Bool :=
  decide (kv.1.data.take 8 = pkTag.data) &&
  !(decide (nameOf kv.1 = "") || decide (kv.2 = "")) &&
  decide (derive kv.2 = none)

lemma pyIntTrunc_intCast (n : ℤ) : pyIntTrunc (n : ℚ) = n := by
  unfold pyIntTrunc
  split <;> simp

lemma roundHalfEven_intCast (j : ℤ) : roundHalfEven (j : ℚ) = j := by
  unfold roundHalfEven
  rw [Int.floor_intCast]
  norm_num

lemma log10_lt_iff (x : ℚ) (hx : 0 < x) (k : ℤ) :
    x < 10 ^ k ↔ Int.log 10 x < k := by
  have h := Int.lt_zpow_iff_log_lt (b := 10) (R := ℚ) (by norm_num) (x := k) hx
  simpa using h

lemma log10_le_iff (x : ℚ) (hx : 0 < x) (k : ℤ) :
    (10 : ℚ) ^ k ≤ x ↔ k ≤ Int.log 10 x := by
  have h := Int.zpow_le_iff_le_log (b := 10) (R := ℚ) (by norm_num) (x := k) hx
  simpa using h

lemma log10_eq (x : ℚ) (hx : 0 < x) (L : ℤ) (h1 : (10 : ℚ) ^ L ≤ x)
    (h2 : x < 10 ^ (L + 1)) : Int.log 10 x = L := by
  have ha := (log10_le_iff x hx L).1 h1
  have hb := (log10_lt_iff x hx (L + 1)).1 h2
  omega

lemma roundPrec_eq_self (x : ℚ) (m k : ℤ) (hx : x = (m : ℚ) * 10 ^ k)
    (hm : |m| < 10 ^ 50) : roundPrec x = x := by
  by_cases hm0 : m = 0
  · subst hm0
    simp at hx
    simp [roundPrec, hx]
  · have hpow : (0 : ℚ) < 10 ^ k := by positivity
    have hx0 : x ≠ 0 := by
      rw [hx]
      exact mul_ne_zero (by exact_mod_cast hm0) (ne_of_gt hpow)
    have habs : |x| = (|m| : ℚ) * 10 ^ k := by
      rw [hx, abs_mul, abs_of_pos hpow]
    have habs_pos : (0 : ℚ) < |x| := abs_pos.2 hx0
    have hmQ : (|m| : ℚ) < 10 ^ 50 := by exact_mod_cast hm
    have hxlt : |x| < 10 ^ (k + 50) := by
      rw [habs, zpow_add₀ (by norm_num : (10 : ℚ) ≠ 0)]
      calc (|m| : ℚ) * 10 ^ k < 10 ^ 50 * 10 ^ k :=
            mul_lt_mul_of_pos_right hmQ hpow
        _ = 10 ^ k * 10 ^ (50 : ℤ) := by
            rw [mul_comm]
            norm_num
    have hLle : Int.log 10 |x| ≤ k + 49 := by
      have := (log10_lt_iff |x| habs_pos (k + 50)).1 hxlt
      omega
    set e : ℤ := Int.log 10 |x| - 49 with he
    have hke : 0 ≤ k - e := by omega
    obtain ⟨d, hd⟩ : ∃ d : ℕ, k - e = (d : ℤ) :=
      ⟨(k - e).toNat, (Int.toNat_of_nonneg hke).symm⟩
    have hkde : k = (d : ℤ) + e := by omega
    have hne : ((10 : ℚ) ^ e) ≠ 0 := by positivity
    have hdiv : x / 10 ^ e = ((m * 10 ^ d : ℤ) : ℚ) := by
      rw [hx, hkde, zpow_add₀ (by norm_num : (10 : ℚ) ≠ 0), zpow_natCast]
      field_simp
      ring
    rw [roundPrec, if_neg hx0, ← he, hdiv, roundHalfEven_intCast, hx, hkde,
      zpow_add₀ (by norm_num : (10 : ℚ) ≠ 0), zpow_natCast]
    push_cast
    ring

lemma roundPrec_pow50_succ : roundPrec ((10 : ℚ) ^ 50 + 1) = 10 ^ 50 := by
  have hx0 : ((10 : ℚ) ^ 50 + 1) ≠ 0 := by norm_num
  have hlog : Int.log 10 |(10 : ℚ) ^ 50 + 1| = 50 := by
    rw [abs_of_pos (by norm_num : (0 : ℚ) < 10 ^ 50 + 1)]
    refine log10_eq _ (by norm_num) 50 ?_ ?_
    · norm_num
    · norm_num
  rw [roundPrec, if_neg hx0, hlog]
  have he : (50 : ℤ) - 49 = 1 := by norm_num
  rw [he]
  have hdiv : ((10 : ℚ) ^ 50 + 1) / 10 ^ (1 : ℤ) = 10 ^ 49 + 1 / 10 := by
    rw [zpow_one]
    ring
  rw [hdiv]
  have hfl : ⌊(10 : ℚ) ^ 49 + 1 / 10⌋ = 10 ^ 49 := by
    rw [Int.floor_eq_iff]
    push_cast
    constructor <;> norm_num
  rw [roundHalfEven, hfl]
  norm_num

lemma to_wei_eq (a : ℚ) (n : ℤ) (h : a * 10 ^ 18 = (n : ℚ))
    (hn : |n| < 10 ^ 50) : to_wei a = n := by
  rw [to_wei, h,
    roundPrec_eq_self _ n 0 (by rw [zpow_zero, mul_one]) hn, pyIntTrunc_intCast]

lemma from_wei_eq (w : ℤ) (a : ℚ) (m k : ℤ) (h : (w : ℚ) / 10 ^ 18 = a)
    (hx : a = (m : ℚ) * 10 ^ k) (hm : |m| < 10 ^ 50) : from_wei w = a := by
  rw [from_wei, h, roundPrec_eq_self a m k hx hm]

lemma gweiToWei_eq (x : ℚ) (n : ℤ) (h : x * 10 ^ 9 = (n : ℚ)) : gweiToWei x = n := by
  rw [gweiToWei, h, pyIntTrunc_intCast]

lemma gweiToWei_two : gweiToWei 2 = 2000000000 :=
  gweiToWei_eq 2 2000000000 (by norm_num)

/-- Claim C3: for every fee quote produced under the dynamic model (latest
block exposes a base-fee field), `maxFeePerGas = 2 * baseFee + priorityFee`
and `maxFeePerGas ≥ maxPriorityFeePerGas`, with `maxPriorityFeePerGas` equal
to the chosen priority fee. -/
theorem dynamic_quote_fields (o : FeeOracle) (fa ta : String) (v : ℤ) (n : ℕ)
    (cid : ℤ) (tip : Option ℚ) (b : ℕ) (hb : o.baseFee = some b) :
    (build_tx o fa ta v n cid tip).2 = FeeModel.eip1559 ∧
    tx_maxFeePerGas (build_tx o fa ta v n cid tip).1
      = some (2 * (b : ℤ) + chosen_priority o tip) ∧
    tx_maxPriorityFeePerGas (build_tx o fa ta v n cid tip).1
      = some (chosen_priority o tip) ∧
    chosen_priority o tip ≤ 2 * (b : ℤ) + chosen_priority o tip := by
  refine ⟨?_, ?_, ?_, ?_⟩
  · simp [build_tx, hb]
  · simp [build_tx, hb, tx_maxFeePerGas]
    ring
  · simp [build_tx, hb, tx_maxPriorityFeePerGas]
  · have : (0 : ℤ) ≤ (b : ℤ) := Int.ofNat_nonneg b
    linarith

/-- Witness for C3 at a concrete dynamic quote: base fee 100 gwei, no explicit
tip, no suggested priority fee. -/
theorem dynamic_quote_fields_witness :
    (build_tx ⟨some 100000000000, none, none⟩ "A" "B" 5 0 21 none).2
      = FeeModel.eip1559 ∧
    tx_maxFeePerGas (build_tx ⟨some 100000000000, none, none⟩ "A" "B" 5 0 21 none).1
      = some 202000000000 ∧
    tx_maxPriorityFeePerGas
        (build_tx ⟨some 100000000000, none, none⟩ "A" "B" 5 0 21 none).1
      = some 2000000000 := by
  have h := dynamic_quote_fields ⟨some 100000000000, none, none⟩ "A" "B" 5 0 21
    none 100000000000 rfl
  refine ⟨h.1, ?_, ?_⟩
  · have := h.2.1
    rwa [show chosen_priority ⟨some 100000000000, none, none⟩ none = 2000000000 by
      simp [chosen_priority, gweiToWei_two], show
      (2 * ((100000000000 : ℕ) : ℤ) + 2000000000) = 202000000000 by norm_num] at this
  · have := h.2.2.1
    rwa [show chosen_priority ⟨some 100000000000, none, none⟩ none = 2000000000 by
      simp [chosen_priority, gweiToWei_two]] at this

/-- Claim C6: under the dynamic model the priority fee follows the fallback
chain — the explicitly supplied gwei value if present, else the network's
suggested priority fee, else exactly 2 gwei (2e9 wei); in particular, with no
explicit tip and a failed network tip query, `maxPriorityFeePerGas = 2e9`. -/
theorem priority_fallback_chain (o : FeeOracle) (fa ta : String) (v : ℤ)
    (n : ℕ) (cid : ℤ) (tip : Option ℚ) (b : ℕ) (hb : o.baseFee = some b) :
    (∀ t : ℚ, tip = some t →
      tx_maxPriorityFeePerGas (build_tx o fa ta v n cid tip).1
        = some (gweiToWei t)) ∧
    (tip = none → ∀ s : ℕ, o.maxPriorityFee = some s →
      tx_maxPriorityFeePerGas (build_tx o fa ta v n cid tip).1 = some (s : ℤ)) ∧
    (tip = none → o.maxPriorityFee = none →
      tx_maxPriorityFeePerGas (build_tx o fa ta v n cid tip).1
        = some 2000000000) := by
  refine ⟨?_, ?_, ?_⟩
  · intro t ht
    simp [build_tx, hb, ht, tx_maxPriorityFeePerGas, chosen_priority]
  · intro ht s hs
    simp [build_tx, hb, ht, hs, tx_maxPriorityFeePerGas, chosen_priority]
  · intro ht hs
    simp [build_tx, hb, ht, hs, tx_maxPriorityFeePerGas, chosen_priority,
      gweiToWei_two]

/-- Witness for C6 at the spec's scenario: base fee 100e9, no explicit tip,
failed network tip query. -/
theorem priority_fallback_chain_witness :
    tx_maxPriorityFeePerGas
        (build_tx ⟨some 100000000000, none, none⟩ "A" "B" 5 0 21 none).1
      = some 2000000000 :=
  (priority_fallback_chain ⟨some 100000000000, none, none⟩ "A" "B" 5 0 21 none
    100000000000 rfl).2.2 rfl rfl

/-- Claim C7: when the latest block lacks a base-fee field the selector
produces a legacy quote whose `gasPrice` is the network's suggested gas price,
or exactly 2 gwei (2e9 wei) if that query fails, and the transaction carries
`gasPrice` and no dynamic-fee fields. -/
theorem legacy_quote_fields (o : FeeOracle) (fa ta : String) (v : ℤ) (n : ℕ)
    (cid : ℤ) (tip : Option ℚ) (hb : o.baseFee = none) :
    (build_tx o fa ta v n cid tip).2 = FeeModel.legacy ∧
    (∀ g : ℕ, o.gasPrice = some g →
      tx_gasPrice (build_tx o fa ta v n cid tip).1 = some (g : ℤ)) ∧
    (o.gasPrice = none →
      tx_gasPrice (build_tx o fa ta v n cid tip).1 = some 2000000000) ∧
    tx_maxFeePerGas (build_tx o fa ta v n cid tip).1 = none ∧
    tx_maxPriorityFeePerGas (build_tx o fa ta v n cid tip).1 = none := by
  refine ⟨?_, ?_, ?_, ?_, ?_⟩
  · simp [build_tx, hb]
  · intro g hg
    simp [build_tx, hb, hg, tx_gasPrice]
  · intro hg
    simp [build_tx, hb, hg, tx_gasPrice, gweiToWei_two]
  · simp [build_tx, hb, tx_maxFeePerGas]
  · simp [build_tx, hb, tx_maxPriorityFeePerGas]

/-- Witness for C7 at the spec's scenario: base fee absent, suggested gas
price 5 gwei. -/
theorem legacy_quote_fields_witness :
    (build_tx ⟨none, none, some 5000000000⟩ "A" "B" 5 0 21 none).2
      = FeeModel.legacy ∧
    tx_gasPrice (build_tx ⟨none, none, some 5000000000⟩ "A" "B" 5 0 21 none).1
      = some 5000000000 ∧
    tx_maxFeePerGas (build_tx ⟨none, none, some 5000000000⟩ "A" "B" 5 0 21 none).1
      = none :=
  ⟨(legacy_quote_fields ⟨none, none, some 5000000000⟩ "A" "B" 5 0 21 none rfl).1,
   (legacy_quote_fields ⟨none, none, some 5000000000⟩ "A" "B" 5 0 21 none rfl).2.1
     5000000000 rfl,
   (legacy_quote_fields ⟨none, none, some 5000000000⟩ "A" "B" 5 0 21 none
     rfl).2.2.2.1⟩

lemma build_tx_fee_spec (o : FeeOracle) (fa ta : String) (v : ℤ)
    (n : ℕ) (cid : ℤ) (tip : Option ℚ) :
    (build_tx o fa ta v n cid tip).1.fee
      = selectFee_spec o.baseFee o.maxPriorityFee o.gasPrice tip := by
  rcases o with ⟨bf, mp, gp⟩
  cases bf <;> cases mp <;> cases gp <;> cases tip <;>
    simp [build_tx, selectFee_spec, chosen_priority] <;> ring

/-- Counterexample to claim C8 as stated: the fee selector can raise. A tip
string such as "nan" or a negative number passes the Decimal parse on line
358, and the library conversion `w3.to_wei(tip_gwei, "gwei")` on line 299
then raises — NaN cannot convert, a negative result is out of range — before
any fee model is chosen and outside every try block of `build_tx`, so no
FeeQuote is produced; shown here at two explicit inputs of the raise-aware
embedding `build_tx_checked`. -/
theorem fee_selector_raises_counterexample :
    build_tx_checked ⟨none, none, some 5000000000⟩ "A" "B" 1 0 21
      (some PyDecimal.nan) = none ∧
    build_tx_checked ⟨some 100000000000, none, none⟩ "A" "B" 1 0 21
      (some (PyDecimal.fin (-1))) = none := by
  constructor
  · rfl
  · have hw : w3_to_wei_gwei (PyDecimal.fin (-1)) = none := by
      simp only [w3_to_wei_gwei]
      rw [if_pos]
      left
      norm_num
    simp [build_tx_checked, hw]

/-- Claim C8, amended: for every combination of query outcomes (base-fee,
priority-fee and gas-price lookups each succeeding or failing) and every tip
input on which the library's gwei conversion does not raise (absent, or a
finite value with an in-range result), the fee selector returns a usable
FeeQuote whose fields follow the spec's documented fallbacks; a NaN, Infinity
or out-of-range tip makes the conversion raise and no FeeQuote is produced. -/
theorem fee_selector_in_range (o : FeeOracle) (fa ta : String) (v : ℤ)
    (n : ℕ) (cid : ℤ) (tip : Option PyDecimal)
    (h : ∀ d, tip = some d → w3_to_wei_gwei d ≠ none) :
    build_tx_checked o fa ta v n cid tip
      = some (build_tx o fa ta v n cid (tipValue tip)) ∧
    (build_tx o fa ta v n cid (tipValue tip)).1.fee
      = selectFee_spec o.baseFee o.maxPriorityFee o.gasPrice (tipValue tip) := by
  refine ⟨?_, build_tx_fee_spec o fa ta v n cid (tipValue tip)⟩
  cases tip with
  | none =>
    rcases o with ⟨bf, mp, gp⟩
    cases bf <;> cases mp <;> cases gp <;>
      simp [build_tx_checked, build_tx, tipValue, chosen_priority]
  | some d =>
    have hd := h d rfl
    cases d with
    | fin q =>
      by_cases hc : q * 10 ^ 9 < 0 ∨ (UINT256_MAX : ℚ) < q * 10 ^ 9
      · exact absurd (by simp [w3_to_wei_gwei, hc]) hd
      · have hw : w3_to_wei_gwei (PyDecimal.fin q)
            = some (pyIntTrunc (q * 10 ^ 9)) := by
          simp [w3_to_wei_gwei, hc]
        rcases o with ⟨bf, mp, gp⟩
        cases bf <;> cases gp <;>
          simp [build_tx_checked, build_tx, tipValue, chosen_priority,
            gweiToWei, hw]
    | nan => exact absurd rfl hd
    | inf => exact absurd rfl hd
    | negInf => exact absurd rfl hd

/-- Witness for the amended C8: base fee 100 gwei, failed priority-fee and
gas-price queries, explicit in-range tip of 1 gwei — the checked selector
returns the same quote as the plain one and both follow the spec fallbacks. -/
theorem fee_selector_in_range_witness :
    build_tx_checked ⟨some 100000000000, none, none⟩ "A" "B" 1 0 21
      (some (PyDecimal.fin 1))
      = some (build_tx ⟨some 100000000000, none, none⟩ "A" "B" 1 0 21 (some 1)) ∧
    (build_tx ⟨some 100000000000, none, none⟩ "A" "B" 1 0 21 (some 1)).1.fee
      = selectFee_spec (some 100000000000) none none (some 1) := by
  have hh : ∀ d, (some (PyDecimal.fin 1) : Option PyDecimal) = some d →
      w3_to_wei_gwei d ≠ none := by
    intro d he
    injection he with he2
    rw [← he2]
    have hc : ¬ ((1 : ℚ) * 10 ^ 9 < 0 ∨ (UINT256_MAX : ℚ) < (1 : ℚ) * 10 ^ 9) := by
      push_neg
      refine ⟨by norm_num, ?_⟩
      rw [UINT256_MAX]
      push_cast
      norm_num
    simp only [w3_to_wei_gwei, if_neg hc]
    simp
  exact fee_selector_in_range ⟨some 100000000000, none, none⟩ "A" "B" 1 0 21
    (some (PyDecimal.fin 1)) hh

/-- Counterexample to claim C4 as stated, at two explicit inputs. The
non-negative decimal amount 10^(-19) (one digit beyond the 18-decimal scale)
truncates to 0 and does not survive the round-trip. The non-negative decimal
amount 10^32 + 10^(-18) fits the 18-decimal scale (its product with 10^18 is
the integer 10^50 + 1) yet still does not survive: the 51-significant-digit
product is rounded to 10^50 by the 50-digit Decimal context before `int()`,
and the round-trip returns 10^32. -/
theorem roundtrip_counterexample :
    (0 ≤ ((1 : ℚ) / 10 ^ 19) ∧
      (∃ m : ℤ, ∃ e : ℕ, ((1 : ℚ) / 10 ^ 19) = (m : ℚ) / 10 ^ e) ∧
      from_wei (to_wei ((1 : ℚ) / 10 ^ 19)) ≠ (1 : ℚ) / 10 ^ 19) ∧
    (0 ≤ ((10 : ℚ) ^ 32 + 1 / 10 ^ 18) ∧
      ((10 : ℚ) ^ 32 + 1 / 10 ^ 18) * 10 ^ 18 = ((10 ^ 50 + 1 : ℤ) : ℚ) ∧
      from_wei (to_wei ((10 : ℚ) ^ 32 + 1 / 10 ^ 18))
        ≠ (10 : ℚ) ^ 32 + 1 / 10 ^ 18) := by
  constructor
  · refine ⟨by norm_num, ⟨1, 19, by norm_num⟩, ?_⟩
    have hr : roundPrec ((1 : ℚ) / 10 ^ 19 * 10 ^ 18) = 1 / 10 := by
      rw [show ((1 : ℚ) / 10 ^ 19) * 10 ^ 18 = 1 / 10 by norm_num]
      refine roundPrec_eq_self _ 1 (-1) ?_ (by norm_num)
      rw [zpow_neg, zpow_one]
      norm_num
    have h : to_wei ((1 : ℚ) / 10 ^ 19) = 0 := by
      rw [to_wei, hr, pyIntTrunc, if_pos (by norm_num)]
      norm_num [Int.floor_eq_iff]
    rw [h]
    simp only [from_wei, Int.cast_zero, zero_div, roundPrec, if_pos rfl]
    norm_num
  · refine ⟨by positivity, by push_cast; ring, ?_⟩
    have hprod : ((10 : ℚ) ^ 32 + 1 / 10 ^ 18) * 10 ^ 18 = (10 : ℚ) ^ 50 + 1 := by
      ring_nf
    have h : to_wei ((10 : ℚ) ^ 32 + 1 / 10 ^ 18) = 10 ^ 50 := by
      rw [to_wei, hprod, roundPrec_pow50_succ,
        show ((10 : ℚ) ^ 50) = ((10 ^ 50 : ℤ) : ℚ) by push_cast; ring,
        pyIntTrunc_intCast]
    rw [h, from_wei_eq (10 ^ 50) ((10 : ℚ) ^ 32) 1 32
      (by push_cast; norm_num)
      (by rw [show ((1 : ℤ) : ℚ) = 1 by norm_num, one_mul]; norm_num)
      (by norm_num)]
    norm_num

/-- Claim C4, amended: for every non-negative decimal amount representable at
the fixed 18-decimal scale within the 50-significant-digit context precision
(`a * 10^18` is an integer of the form m * 10^k with |m| < 10^50), converting
to the smallest unit and back is the identity. -/
theorem roundtrip_in_precision (a : ℚ) (h0 : 0 ≤ a) (m : ℤ) (k : ℕ)
    (hm : a * 10 ^ 18 = (m : ℚ) * 10 ^ k) (hb : |m| < 10 ^ 50) :
    from_wei (to_wei a) = a := by
  have hxa : a * 10 ^ 18 = (m : ℚ) * 10 ^ (k : ℤ) := by
    rw [hm, zpow_natCast]
  have h1 : to_wei a = m * 10 ^ k := by
    rw [to_wei, roundPrec_eq_self _ m (k : ℤ) hxa hb, hxa, zpow_natCast,
      show (m : ℚ) * 10 ^ k = ((m * 10 ^ k : ℤ) : ℚ) by push_cast; ring,
      pyIntTrunc_intCast]
  rw [h1]
  refine from_wei_eq _ a m ((k : ℤ) - 18) ?_ ?_ hb
  · rw [div_eq_iff (by norm_num : ((10 : ℚ) ^ 18) ≠ 0)]
    push_cast
    linarith [hm]
  · rw [zpow_sub₀ (by norm_num : (10 : ℚ) ≠ 0), zpow_natCast,
      show ((10 : ℚ) ^ (18 : ℤ)) = 10 ^ (18 : ℕ) by norm_num]
    field_simp
    linarith [hm]

/-- Witness for the amended C4 at the spec's exactness example,
amount 1.000000005. -/
theorem roundtrip_in_precision_witness :
    from_wei (to_wei ((1000000005 : ℚ) / 10 ^ 9)) = (1000000005 : ℚ) / 10 ^ 9 ∧
    to_wei ((1000000005 : ℚ) / 10 ^ 9) = 1000000005000000000 :=
  ⟨roundtrip_in_precision ((1000000005 : ℚ) / 10 ^ 9) (by norm_num)
      1000000005 9 (by norm_num) (by norm_num),
   to_wei_eq _ _ (by norm_num) (by norm_num)⟩

/-- Counterexample to claim C5 as stated: the negative numeric amount -1 is
not rejected — `to_wei` returns the negative integer -10^18 and the
submission flow proceeds past the amount step all the way to the confirmation
gate (here declined), instead of failing with InvalidAmount. -/
theorem negative_amount_counterexample :
    to_wei (-1) = -1000000000000000000 ∧
    send_ctxc ⟨⟨none, none, none⟩, 0, 0, none, Except.ok 7⟩
        ⟨some "B", some (-1), none, false⟩ "A" 21
      = ⟨SendResult.userCancelled, 0, 0⟩ := by
  have hval : to_wei (-1 : ℚ) = -1000000000000000000 := to_wei_eq _ _ (by norm_num) (by norm_num)
  refine ⟨hval, ?_⟩
  simp only [send_ctxc, effective_tip, hval]
  norm_num [build_tx, chosen_priority, gweiToWei_two, est_fee, GAS_LIMIT_TRANSFER]

/-- Claim C5, amended: the conversion is total over all numeric inputs — a
non-numeric amount fails the operation with InvalidAmount, while a negative
numeric amount is accepted (the conversion yields a negative integer and the
submission flow does not abort at the amount step). -/
theorem amount_gate (o : SendOracle) (i : SendInput) (fa : String) (cid : ℤ)
    (ta : String) (hd : i.dest = some ta) :
    (i.amountIn = none →
      send_ctxc o i fa cid = ⟨SendResult.invalidAmount, 0, 0⟩) ∧
    (∀ q : ℚ, i.amountIn = some q →
      (send_ctxc o i fa cid).result ≠ SendResult.invalidAmount) := by
  constructor
  · intro ha
    simp [send_ctxc, hd, ha]
  · intro q ha
    simp only [send_ctxc, hd, ha]
    split
    · simp
    · split
      · simp
      · split
        · simp
        · split <;> simp

/-- Witness for the amended C5: a failed parse yields InvalidAmount, a parsed
amount never does. -/
theorem amount_gate_witness :
    send_ctxc ⟨⟨none, none, none⟩, 0, 0, none, Except.ok 7⟩
        ⟨some "B", none, none, false⟩ "A" 21
      = ⟨SendResult.invalidAmount, 0, 0⟩ ∧
    (send_ctxc ⟨⟨none, none, none⟩, 0, 0, none, Except.ok 7⟩
        ⟨some "B", some 1, none, false⟩ "A" 21).result
      ≠ SendResult.invalidAmount :=
  ⟨(amount_gate ⟨⟨none, none, none⟩, 0, 0, none, Except.ok 7⟩
      ⟨some "B", none, none, false⟩ "A" 21 "B" rfl).1 rfl,
   (amount_gate ⟨⟨none, none, none⟩, 0, 0, none, Except.ok 7⟩
      ⟨some "B", some 1, none, false⟩ "A" 21 "B" rfl).2 1 rfl⟩

/-- Claim C1: whenever the queried balance is strictly below
value + estimated fee (gas times gasPrice for the legacy model, gas times
maxFeePerGas for the dynamic model), the submission fails with
InsufficientFunds and neither signing nor broadcast occurs. -/
theorem insufficient_funds_blocks (o : SendOracle) (i : SendInput)
    (fa : String) (cid : ℤ) (ta : String) (q : ℚ)
    (hd : i.dest = some ta) (ha : i.amountIn = some q)
    (hb : (o.balance : ℤ) < to_wei q +
      est_fee (build_tx o.fees fa ta (to_wei q) o.nonce cid
        (effective_tip i.tipIn)).1) :
    send_ctxc o i fa cid = ⟨SendResult.insufficientFunds, 0, 0⟩ := by
  simp only [send_ctxc, hd, ha]
  rw [if_pos hb]

/-- Witness for C1: balance 1.0 unit, amount 0.9 unit, legacy gas price
10^13 wei giving a 0.21-unit estimated fee — InsufficientFunds, zero signing
and broadcast calls. -/
theorem insufficient_funds_blocks_witness :
    send_ctxc ⟨⟨none, none, some 10000000000000⟩, 0, 1000000000000000000,
        some 1, Except.ok 7⟩ ⟨some "B", some (9 / 10), none, true⟩ "A" 21
      = ⟨SendResult.insufficientFunds, 0, 0⟩ := by
  have hv : to_wei ((9 : ℚ) / 10) = 900000000000000000 := to_wei_eq _ _ (by norm_num) (by norm_num)
  exact insufficient_funds_blocks
    ⟨⟨none, none, some 10000000000000⟩, 0, 1000000000000000000, some 1, Except.ok 7⟩
    ⟨some "B", some (9 / 10), none, true⟩ "A" 21 "B" (9 / 10) rfl rfl
    (by rw [hv]
        norm_num [build_tx, est_fee, effective_tip, chosen_priority,
          gweiToWei_two, GAS_LIMIT_TRANSFER])

/-- Claim C2: whenever the balance check passes and the confirmation gate
declines, the submission fails with UserCancelled and no signing or broadcast
is performed. -/
theorem declined_confirmation_blocks (o : SendOracle) (i : SendInput)
    (fa : String) (cid : ℤ) (ta : String) (q : ℚ)
    (hd : i.dest = some ta) (ha : i.amountIn = some q)
    (hb : ¬ ((o.balance : ℤ) < to_wei q +
      est_fee (build_tx o.fees fa ta (to_wei q) o.nonce cid
        (effective_tip i.tipIn)).1))
    (hc : i.confirmYes = false) :
    send_ctxc o i fa cid = ⟨SendResult.userCancelled, 0, 0⟩ := by
  simp only [send_ctxc, hd, ha]
  rw [if_neg hb, hc]
  simp

/-- Witness for C2: an affordable transaction (balance 10 units, amount 0.9
unit) with the gate declining — UserCancelled, zero signing and broadcast
calls. -/
theorem declined_confirmation_blocks_witness :
    send_ctxc ⟨⟨none, none, some 10000000000000⟩, 0, 10000000000000000000,
        some 1, Except.ok 7⟩ ⟨some "B", some (9 / 10), none, false⟩ "A" 21
      = ⟨SendResult.userCancelled, 0, 0⟩ := by
  have hv : to_wei ((9 : ℚ) / 10) = 900000000000000000 := to_wei_eq _ _ (by norm_num) (by norm_num)
  exact declined_confirmation_blocks
    ⟨⟨none, none, some 10000000000000⟩, 0, 10000000000000000000, some 1, Except.ok 7⟩
    ⟨some "B", some (9 / 10), none, false⟩ "A" 21 "B" (9 / 10) rfl rfl
    (by rw [hv]
        norm_num [build_tx, est_fee, effective_tip, chosen_priority,
          gweiToWei_two, GAS_LIMIT_TRANSFER])
    rfl

lemma lexLeChars_total : ∀ a b : List Char, lexLeChars a b = true ∨ lexLeChars b a = true := by
  intro a
  induction a with
  | nil => intro b; left; rfl
  | cons x xs ih =>
    intro b
    cases b with
    | nil => right; rfl
    | cons y ys =>
      rcases Nat.lt_trichotomy x.toNat y.toNat with h | h | h
      · left; simp [lexLeChars, h]
      · rcases ih ys with h2 | h2
        · left; simp [lexLeChars, h, h2]
        · right; simp [lexLeChars, h.symm, h2]
      · right; simp [lexLeChars, h]

lemma lexLeChars_trans :
    ∀ a b c : List Char, lexLeChars a b = true → lexLeChars b c = true →
      lexLeChars a c = true := by
  intro a
  induction a with
  | nil => intro b c _ _; rfl
  | cons x xs ih =>
    intro b c hab hbc
    cases b with
    | nil => simp [lexLeChars] at hab
    | cons y ys =>
      cases c with
      | nil => simp [lexLeChars] at hbc
      | cons z zs =>
        by_cases hxy : x.toNat < y.toNat
        · by_cases hyz : y.toNat < z.toNat
          · simp [lexLeChars, hxy.trans hyz]
          · by_cases hzy : z.toNat < y.toNat
            · simp [lexLeChars, hyz, hzy] at hbc
            · have hxz : x.toNat < z.toNat := by omega
              simp [lexLeChars, hxz]
        · by_cases hyx : y.toNat < x.toNat
          · simp [lexLeChars, hxy, hyx] at hab
          · simp only [lexLeChars, if_neg hxy, if_neg hyx] at hab
            by_cases hyz : y.toNat < z.toNat
            · have hxz : x.toNat < z.toNat := by omega
              simp [lexLeChars, hxz]
            · by_cases hzy : z.toNat < y.toNat
              · simp [lexLeChars, hyz, hzy] at hbc
              · simp only [lexLeChars, if_neg hyz, if_neg hzy] at hbc
                have h1 : ¬ x.toNat < z.toNat := by omega
                have h2 : ¬ z.toNat < x.toNat := by omega
                simp only [lexLeChars, if_neg h1, if_neg h2]
                exact ih ys zs hab hbc

instance : IsTotal (String × ℕ) (fun p q => keyLe p q = true) :=
  ⟨fun p q => lexLeChars_total (keyOf p) (keyOf q)⟩

instance : IsTrans (String × ℕ) (fun p q => keyLe p q = true) :=
  ⟨fun _ _ _ => lexLeChars_trans _ _ _⟩

lemma sortAccounts_perm (l : List (String × ℕ)) : List.Perm (sortAccounts l) l :=
  List.perm_insertionSort _ l

lemma sortAccounts_sorted (l : List (String × ℕ)) :
    (sortAccounts l).Pairwise (fun p q => keyLe p q = true) :=
  List.sorted_insertionSort _ l

lemma mem_map_fst_dictInsert_self (d : List (String × ℕ)) (k : String) (v : ℕ) :
    k ∈ (dictInsert d k v).map Prod.fst := by
  unfold dictInsert
  split
  · rename_i h
    obtain ⟨p, hp, hpk⟩ := List.any_eq_true.1 h
    have hpk2 : p.1 = k := of_decide_eq_true hpk
    exact List.mem_map.2 ⟨(k, v), List.mem_map.2 ⟨p, hp, by simp [hpk2]⟩, rfl⟩
  · simp

lemma mem_map_fst_dictInsert_mono (d : List (String × ℕ)) (k : String) (v : ℕ)
    (k0 : String) (h : k0 ∈ d.map Prod.fst) :
    k0 ∈ (dictInsert d k v).map Prod.fst := by
  unfold dictInsert
  split
  · obtain ⟨p, hp, he⟩ := List.mem_map.1 h
    refine List.mem_map.2 ?_
    by_cases hpk : p.1 = k
    · exact ⟨(k, v), List.mem_map.2 ⟨p, hp, by simp [hpk]⟩, by rw [← he, hpk]⟩
    · exact ⟨p, List.mem_map.2 ⟨p, hp, by simp [hpk]⟩, he⟩
  · simp [List.mem_map.1 h]

lemma mem_dictInsert_elim (d : List (String × ℕ)) (k : String) (v : ℕ)
    (p : String × ℕ) (h : p ∈ dictInsert d k v) : p ∈ d ∨ p = (k, v) := by
  unfold dictInsert at h
  split at h
  · obtain ⟨q, hq, he⟩ := List.mem_map.1 h
    by_cases hqk : q.1 = k
    · right
      rw [if_pos hqk] at he
      exact he.symm
    · left
      rw [if_neg hqk] at he
      rwa [← he]
  · rcases List.mem_append.1 h with h1 | h2
    · exact Or.inl h1
    · right
      simpa using h2

lemma foldl_load_warns (d : String → Option ℕ) :
    ∀ (l : List (String × String)) (st : List (String × ℕ) × ℕ),
      (List.foldl (load_step d) st l).2 = st.2 + l.countP (failsDerive d) := by
  intro l
  induction l with
  | nil => intro st; simp
  | cons kv rest ih =>
    intro st
    rw [List.foldl_cons, ih, List.countP_cons]
    by_cases h1 : kv.1.data.take 8 = pkTag.data
    · by_cases h2 : nameOf kv.1 = "" ∨ kv.2 = ""
      · simp only [load_step, if_pos h1, if_pos h2, failsDerive]
        have : (!(decide (nameOf kv.1 = "") || decide (kv.2 = ""))) = false := by
          rcases h2 with h2 | h2 <;> simp [h2]
        simp [this]
      · cases hd : d kv.2 with
        | some a =>
          simp only [load_step, if_pos h1, if_neg h2, hd, failsDerive]
          simp [hd]
        | none =>
          simp only [load_step, if_pos h1, if_neg h2, hd, failsDerive]
          have : (!(decide (nameOf kv.1 = "") || decide (kv.2 = ""))) = true := by
            push_neg at h2
            simp [h2.1, h2.2]
          simp [this, h1, hd]
          omega
    · simp [load_step, h1, failsDerive]

lemma foldl_load_keys_mono (d : String → Option ℕ) :
    ∀ (l : List (String × String)) (st : List (String × ℕ) × ℕ) (k0 : String),
      k0 ∈ st.1.map Prod.fst →
      k0 ∈ (List.foldl (load_step d) st l).1.map Prod.fst := by
  intro l
  induction l with
  | nil => intro st k0 h; simpa using h
  | cons kv rest ih =>
    intro st k0 h
    rw [List.foldl_cons]
    refine ih _ k0 ?_
    unfold load_step
    split
    · split
      · exact h
      · cases hd : d kv.2 with
        | some a => exact mem_map_fst_dictInsert_mono _ _ _ _ h
        | none => exact h
    · exact h

lemma foldl_load_mem (d : String → Option ℕ) :
    ∀ (l : List (String × String)) (st : List (String × ℕ) × ℕ)
      (k v : String), (k, v) ∈ l → k.data.take 8 = pkTag.data →
      nameOf k ≠ "" → v ≠ "" → ∀ a, d v = some a →
      nameOf k ∈ (List.foldl (load_step d) st l).1.map Prod.fst := by
  intro l
  induction l with
  | nil => intro st k v h; simp at h
  | cons kv rest ih =>
    intro st k v hmem htag hname hval a hder
    rcases List.mem_cons.1 hmem with he | hrest
    · rw [List.foldl_cons]
      refine foldl_load_keys_mono d rest _ (nameOf k) ?_
      have h1 : kv.1 = k := by rw [← he]
      have h2 : kv.2 = v := by rw [← he]
      unfold load_step
      rw [h1, h2, if_pos htag, if_neg (by push_neg; exact ⟨hname, hval⟩), hder]
      exact mem_map_fst_dictInsert_self _ _ _
    · rw [List.foldl_cons]
      exact ih _ k v hrest htag hname hval a hder

lemma foldl_load_origin (d : String → Option ℕ) (origin : String → Prop) :
    ∀ (l : List (String × String)) (st : List (String × ℕ) × ℕ),
      (∀ p ∈ st.1, ∃ cred, d cred = some p.2 ∧ origin cred) →
      (∀ kv ∈ l, origin kv.2) →
      ∀ p ∈ (List.foldl (load_step d) st l).1,
        ∃ cred, d cred = some p.2 ∧ origin cred := by
  intro l
  induction l with
  | nil => intro st hst _ p hp; exact hst p (by simpa using hp)
  | cons kv rest ih =>
    intro st hst hl p hp
    rw [List.foldl_cons] at hp
    refine ih _ ?_ (fun x hx => hl x (List.mem_cons_of_mem kv hx)) p hp
    intro q hq
    unfold load_step at hq
    split at hq
    · split at hq
      · exact hst q hq
      · cases hd : d kv.2 with
        | some a =>
          rw [hd] at hq
          rcases mem_dictInsert_elim _ _ _ _ hq with h1 | h2
          · exact hst q h1
          · exact ⟨kv.2, by rw [hd, h2], hl kv (List.mem_cons_self kv rest)⟩
        | none =>
          rw [hd] at hq
          exact hst q hq
    · exact hst q hq

/-- Claim C9: `load_accounts` never aborts (it is a total function); its
result is sorted by name case-insensitively; it emits exactly one warning per
credential failing key derivation or checksum validation (legacy credential
included); every valid tagged credential contributes its name to the
registry; a valid non-empty legacy credential contributes the reserved
"LEGACY" name; and every registry entry holds an account derived from one of
the supplied credentials. -/
theorem load_accounts_spec (derive : String → Option ℕ) (leg : Option String)
    (env : List (String × String)) :
    ((load_accounts derive leg env).1.Pairwise (fun p q => keyLe p q = true)) ∧
    ((load_accounts derive leg env).2
      = (load_accounts derive leg []).2 + env.countP (failsDerive derive)) ∧
    (∀ k v, (k, v) ∈ env → k.data.take 8 = pkTag.data → nameOf k ≠ "" →
      v ≠ "" → ∀ a, derive v = some a →
      nameOf k ∈ (load_accounts derive leg env).1.map Prod.fst) ∧
    (∀ s, leg = some s → s ≠ "" → ∀ a, derive s = some a →
      legacyName ∈ (load_accounts derive leg env).1.map Prod.fst) ∧
    (∀ p, p ∈ (load_accounts derive leg env).1 →
      ∃ cred, derive cred = some p.2 ∧
        (leg = some cred ∨ ∃ kk, (kk, cred) ∈ env)) := by
  refine ⟨sortAccounts_sorted _, ?_, ?_, ?_, ?_⟩
  · simp only [load_accounts]
    rw [foldl_load_warns, foldl_load_warns]
    simp
  · intro k v hmem htag hname hval a hder
    simp only [load_accounts]
    have h := foldl_load_mem derive env (load_start derive leg) k v hmem htag
      hname hval a hder
    obtain ⟨p, hp, he⟩ := List.mem_map.1 h
    exact List.mem_map.2 ⟨p, (sortAccounts_perm _).mem_iff.2 hp, he⟩
  · intro s hs hs0 a hder
    simp only [load_accounts]
    have hstart : legacyName ∈ (load_start derive leg).1.map Prod.fst := by
      rw [hs]
      simp only [load_start]
      rw [if_neg hs0, hder]
      simp
    have h := foldl_load_keys_mono derive env (load_start derive leg)
      legacyName hstart
    obtain ⟨p, hp, he⟩ := List.mem_map.1 h
    exact List.mem_map.2 ⟨p, (sortAccounts_perm _).mem_iff.2 hp, he⟩
  · intro p hp
    simp only [load_accounts] at hp
    have hp2 := (sortAccounts_perm _).mem_iff.1 hp
    refine foldl_load_origin derive
      (fun cred => leg = some cred ∨ ∃ kk, (kk, cred) ∈ env) env _ ?_
      (fun kv hkv => Or.inr ⟨kv.1, by simpa using hkv⟩) p hp2
    intro q hq
    cases hleg : leg with
    | none => rw [hleg] at hq; simp [load_start] at hq
    | some s =>
      rw [hleg] at hq
      simp only [load_start] at hq
      by_cases hs : s = ""
      · rw [if_pos hs] at hq; simp at hq
      · rw [if_neg hs] at hq
        cases hd : derive s with
        | some acct =>
          rw [hd] at hq
          simp only [List.mem_singleton] at hq
          exact ⟨s, by rw [hd, hq], Or.inl rfl⟩
        | none => rw [hd] at hq; simp at hq

/-- Witness for C9 at the spec's scenario: three tagged credentials, one
malformed — a registry of size 2 (sorted, both valid names present) and one
warning; plus a valid legacy credential registering under "LEGACY". -/
theorem load_accounts_spec_witness :
    ((load_accounts
        (fun s => if s = "ka" then some 1 else if s = "kc" then some 3 else none)
        none
        [("CTXC_PK_A", "ka"), ("CTXC_PK_B", "kb"), ("CTXC_PK_C", "kc")]).2 = 1) ∧
    ("A" ∈ (load_accounts
        (fun s => if s = "ka" then some 1 else if s = "kc" then some 3 else none)
        none
        [("CTXC_PK_A", "ka"), ("CTXC_PK_B", "kb"), ("CTXC_PK_C", "kc")]).1.map
          Prod.fst) ∧
    ((load_accounts
        (fun s => if s = "ka" then some 1 else if s = "kc" then some 3 else none)
        none
        [("CTXC_PK_A", "ka"), ("CTXC_PK_B", "kb"), ("CTXC_PK_C", "kc")]).1.length
      = 2) ∧
    (legacyName ∈ (load_accounts (fun s => if s = "kl" then some 9 else none)
        (some "kl") []).1.map Prod.fst) := by
  refine ⟨?_, ?_, by decide, ?_⟩
  · have h := (load_accounts_spec
      (fun s => if s = "ka" then some 1 else if s = "kc" then some 3 else none)
      none
      [("CTXC_PK_A", "ka"), ("CTXC_PK_B", "kb"), ("CTXC_PK_C", "kc")]).2.1
    rw [h]
    decide
  · have h := (load_accounts_spec
      (fun s => if s = "ka" then some 1 else if s = "kc" then some 3 else none)
      none
      [("CTXC_PK_A", "ka"), ("CTXC_PK_B", "kb"), ("CTXC_PK_C", "kc")]).2.2.1
      "CTXC_PK_A" "ka" (by decide) (by decide) (by decide) (by decide) 1 (by decide)
    have he : nameOf "CTXC_PK_A" = "A" := by decide
    rwa [he] at h
  · exact (load_accounts_spec (fun s => if s = "kl" then some 9 else none)
      (some "kl") []).2.2.2.1 "kl" rfl (by decide) 9 (by decide)

/-- Claim C10: when both the unnamed legacy credential and a named credential
under the reserved name are supplied and valid, the registry holds a single
entry under "LEGACY" whose account comes from the named credential — the
named entry silently overwrites the legacy one, with no warning. -/
theorem legacy_name_overwrite (derive : String → Option ℕ) (l v : String)
    (a1 a2 : ℕ) (hl : l ≠ "") (hv : v ≠ "") (h1 : derive l = some a1)
    (h2 : derive v = some a2) :
    load_accounts derive (some l) [("CTXC_PK_LEGACY", v)]
      = ([(legacyName, a2)], 0) := by
  have htag : ("CTXC_PK_LEGACY" : String).data.take 8 = pkTag.data := by decide
  have hname : nameOf "CTXC_PK_LEGACY" = legacyName := by decide
  simp only [load_accounts, load_start, List.foldl_cons, List.foldl_nil,
    if_neg hl, h1]
  unfold load_step
  rw [if_pos htag, hname,
    if_neg (by push_neg; exact ⟨by decide, hv⟩), h2]
  simp [dictInsert, sortAccounts, List.insertionSort]

/-- Witness for C10 at concrete credentials: legacy key derives account 1,
the named `CTXC_PK_LEGACY` key derives account 2, and the registry holds only
("LEGACY", 2). -/
theorem legacy_name_overwrite_witness :
    load_accounts (fun s => if s = "kl" then some 1 else if s = "kv" then some 2 else none)
        (some "kl") [("CTXC_PK_LEGACY", "kv")]
      = ([(legacyName, 2)], 0) :=
  legacy_name_overwrite
    (fun s => if s = "kl" then some 1 else if s = "kv" then some 2 else none)
    "kl" "kv" 1 2 (by decide) (by decide) (by decide) (by decide)

end CortexWallet
